import Mathlib

/-!
Verification of the numeric core of the HVAC construction dataset generator
(`generate_hvac_dataset.py`).

The Python program is shallowly embedded over `ℚ`:
* Python floats become rationals; the idealisation is exact arithmetic.
* `round` in Python rounds half to even, embedded as `pyRound`.
* Draws from the pseudo-random source (`random.uniform`, `random.choice`,
  `random.random`, `random.choices`) become explicit function parameters, so
  every theorem quantifies over all possible draws.
* Identifiers produced by `uuid.uuid4()` become an explicit string parameter,
  kept separate from the seeded pseudo-random draws, because `uuid4` does not
  read the seeded generator.
-/

/-- Python `round` on an exact rational: round half to even. -/
def pyRound (q : ℚ) : ℤ :=
  if q - ⌊q⌋ < 1/2 then ⌊q⌋
  else if 1/2 < q - ⌊q⌋ then ⌊q⌋ + 1
  else if 2 ∣ ⌊q⌋ then ⌊q⌋ else ⌊q⌋ + 1

/-- Python `round(x / 100) * 100`: round to the nearest 100 currency units. -/
def roundTo100 (q : ℚ) : ℚ := (pyRound (q / 100) : ℚ) * 100

/-- Python `round(x, 2)`: round to the nearest cent. -/
def roundCents (q : ℚ) : ℚ := (pyRound (q * 100) : ℚ) / 100

theorem pyRound_zero : pyRound 0 = 0 := by norm_num [pyRound]

theorem roundTo100_zero : roundTo100 0 = 0 := by norm_num [roundTo100, pyRound]

theorem abs_pyRound_sub_le (q : ℚ) : |(pyRound q : ℚ) - q| ≤ 1/2 := by
  have h0 : (⌊q⌋ : ℚ) ≤ q := Int.floor_le q
  have h1 : q < ⌊q⌋ + 1 := Int.lt_floor_add_one q
  unfold pyRound
  split_ifs with ha hb hc <;> rw [abs_le] <;> push_cast <;> constructor <;> linarith

theorem abs_roundCents_sub_le (q : ℚ) : |roundCents q - q| ≤ 1/200 := by
  have h := abs_pyRound_sub_le (q * 100)
  have : roundCents q - q = ((pyRound (q * 100) : ℚ) - q * 100) / 100 := by
    unfold roundCents; ring
  rw [this, abs_div]
  rw [show |(100 : ℚ)| = 100 by norm_num]
  linarith [abs_nonneg ((pyRound (q * 100) : ℚ) - q * 100)]

/-- One line of the schedule of values, as produced by `generate_sov`. -/
structure SOVLine where
  line_number : ℤ
  scheduled_value : ℚ
  labor_pct : ℚ
  material_pct : ℚ
deriving DecidableEq, Inhabited, Repr

/-- The fixed `SOV_TEMPLATE` catalog: line number and percentage range. -/
def SOV_TEMPLATE : List (ℤ × ℚ × ℚ) :=
  [(1, 6/100, 9/100), (2, 2/100, 4/100), (3, 8/100, 12/100), (4, 10/100, 14/100),
   (5, 8/100, 12/100), (6, 4/100, 7/100), (7, 12/100, 18/100), (8, 8/100, 14/100),
   (9, 6/100, 10/100), (10, 6/100, 10/100), (11, 3/100, 5/100), (12, 4/100, 6/100),
   (13, 2/100, 4/100), (14, 2/100, 3/100), (15, 1/100, 2/100)]

/-- Add `r` to the `scheduled_value` of the last line of the list
(the conservation repair `sov_lines[-1]["scheduled_value"] += ...`). -/
def setLastValue : List SOVLine → ℚ → List SOVLine
  | [], _ => []
  | [l], r => [{ l with scheduled_value := l.scheduled_value + r }]
  | l :: l2 :: rest, r => l :: setLastValue (l2 :: rest) r

/-- `generate_sov`: draw a raw percentage per template line, normalize the
vector to sum to 1, scale by the contract value, round each line to the
nearest 100, then add the residual to the last line. The random draws are the
function parameters `pctDraw`, `laborDraw`, `materialDraw` (indexed by
template position). -/
def generate_sov (contract_value : ℚ) (pctDraw laborDraw materialDraw : ℕ → ℚ) :
    List SOVLine :=
  let raw := (List.range SOV_TEMPLATE.length).map pctDraw
  let total := raw.sum
  let base := (SOV_TEMPLATE.zip (List.range SOV_TEMPLATE.length)).map fun ti =>
    { line_number := ti.1.1
      scheduled_value := roundTo100 (contract_value * (pctDraw ti.2 / total))
      labor_pct := laborDraw ti.2
      material_pct := materialDraw ti.2 : SOVLine }
  setLastValue base (contract_value - (base.map (·.scheduled_value)).sum)

theorem setLastValue_sum : ∀ (xs : List SOVLine) (r : ℚ), xs ≠ [] →
    ((setLastValue xs r).map (·.scheduled_value)).sum
      = (xs.map (·.scheduled_value)).sum + r
  | [], _, h => absurd rfl h
  | [l], r, _ => by simp [setLastValue]
  | l :: l2 :: rest, r, _ => by
    have ih := setLastValue_sum (l2 :: rest) r (by simp)
    simp only [setLastValue, List.map_cons, List.sum_cons]
    rw [List.map_cons, List.sum_cons] at ih
    rw [ih]; ring

theorem setLastValue_length : ∀ (xs : List SOVLine) (r : ℚ),
    (setLastValue xs r).length = xs.length
  | [], _ => rfl
  | [_], _ => rfl
  | _ :: l2 :: rest, r => by
    simp only [setLastValue, List.length_cons, setLastValue_length (l2 :: rest) r]

theorem setLastValue_dropLast : ∀ (xs : List SOVLine) (r : ℚ),
    (setLastValue xs r).dropLast = xs.dropLast
  | [], _ => rfl
  | [_], _ => rfl
  | l :: l2 :: rest, r => by
    have ih := setLastValue_dropLast (l2 :: rest) r
    obtain ⟨y, ys, hrec⟩ : ∃ y ys, setLastValue (l2 :: rest) r = y :: ys := by
      cases rest <;> exact ⟨_, _, rfl⟩
    simp only [setLastValue, hrec, List.dropLast_cons₂]
    rw [← hrec, ih]

/-- C1: the SOV lines produced by `generate_sov` sum exactly to the contract
value, and every line except the last is a multiple of 100 (each line is
rounded to the nearest 100 and the last line absorbs the full residual). -/
theorem sov_conservation (cv : ℚ) (pctDraw laborDraw materialDraw : ℕ → ℚ) :
    ((generate_sov cv pctDraw laborDraw materialDraw).map (·.scheduled_value)).sum = cv ∧
    ∀ line ∈ (generate_sov cv pctDraw laborDraw materialDraw).dropLast,
      ∃ k : ℤ, line.scheduled_value = (k : ℚ) * 100 := by
  constructor
  · unfold generate_sov
    rw [setLastValue_sum _ _ (by simp [SOV_TEMPLATE])]
    ring
  · intro line hline
    unfold generate_sov at hline
    rw [setLastValue_dropLast] at hline
    have hmem := List.dropLast_subset _ hline
    simp only [List.mem_map] at hmem
    obtain ⟨ti, _, hti⟩ := hmem
    subst hti
    exact ⟨_, rfl⟩

theorem generate_sov_length (cv : ℚ) (p l m : ℕ → ℚ) :
    (generate_sov cv p l m).length = 15 := by
  simp [generate_sov, setLastValue_length, SOV_TEMPLATE]

theorem headI_mem_dropLast : ∀ (xs : List SOVLine), 2 ≤ xs.length → xs.headI ∈ xs.dropLast
  | [], h => by simp at h
  | [_], h => by simp at h
  | a :: b :: t, _ => by simp [List.dropLast_cons₂]

/-- Witness for C1 at a concrete contract value and concrete draws. -/
theorem sov_conservation_witness :
    ((generate_sov 1000000 (fun _ => 1/15) (fun _ => 3/5) (fun _ => 3/10)).map
      (·.scheduled_value)).sum = 1000000 ∧
    ∃ k : ℤ,
      ((generate_sov 1000000 (fun _ => 1/15) (fun _ => 3/5) (fun _ => 3/10)).headI).scheduled_value
        = (k : ℚ) * 100 := by
  have h := sov_conservation 1000000 (fun _ => 1/15) (fun _ => 3/5) (fun _ => 3/10)
  refine ⟨h.1, h.2 _ ?_⟩
  exact headI_mem_dropLast _ (by rw [generate_sov_length]; norm_num)

/-- One line item of a billing application (`line_items` entries built in
`generate_billing_history`). -/
structure BillingLineItem where
  scheduled_value : ℚ
  previous_billed : ℚ
  this_period : ℚ
  total_billed : ℚ
  balance_to_finish : ℚ
deriving DecidableEq, Inhabited, Repr

/-- One monthly billing application (`generate_billing_history` record). -/
structure BillingApplication where
  application_number : ℕ
  period_total : ℚ
  cumulative_billed : ℚ
  retention_held : ℚ
  net_payment_due : ℚ
  line_items : List BillingLineItem
deriving DecidableEq, Inhabited, Repr

/-- The S-curve progress multiplier for month `month` of `duration` months:
slow start below 15%, linear peak to 85%, tapering closeout, clamped to 1. -/
def progressMult (month duration : ℕ) : ℚ :=
  let month_pct : ℚ := (month : ℚ) / (duration : ℚ)
  let pm :=
    if month_pct < 15/100 then month_pct * 2
    else if month_pct < 85/100 then 3/10 + (month_pct - 15/100) * 1
    else 95/100 + (month_pct - 85/100) * (33/100)
  min pm 1

/-- The per-line target percentage, keyed on the SOV line number: early lines
lead, core work tracks the S-curve, controls and closeout lag. -/
def targetPct (sov_num : ℤ) (progress_mult : ℚ) : ℚ :=
  let t :=
    if sov_num ≤ 2 then min (progress_mult * (13/10)) 1
    else if sov_num ≤ 9 then progress_mult
    else if sov_num ≤ 12 then max (progress_mult - 15/100) 0 * (115/100)
    else max (progress_mult - 3/10) 0 * (14/10)
  min t 1

/-- The period billing for one SOV line in one month: the gap to the target
amount, damped by the uniform draw `damp`, rounded to the nearest 100, and
hard-capped so cumulative billing never exceeds the scheduled value. -/
def linePeriodBilling (scheduled_value billed target_pct damp : ℚ) : ℚ :=
  let target_amount := scheduled_value * target_pct
  let pb0 := max (target_amount - billed) 0
  let pb := roundTo100 (pb0 * damp)
  if billed + pb > scheduled_value then scheduled_value - billed else pb

/-- Bill every SOV line once, given per-line (line, cumulative billed, damp)
triples: returns the new per-line cumulative billing, the emitted line items
(only lines with positive period billing appear), and the period total. -/
def billLines (pm : ℚ) : List (SOVLine × ℚ × ℚ) → List ℚ × List BillingLineItem × ℚ
  | [] => ([], [], 0)
  | t :: rest =>
    let pb := linePeriodBilling t.1.scheduled_value t.2.1 (targetPct t.1.line_number pm) t.2.2
    let r := billLines pm rest
    if pb > 0 then
      ((t.2.1 + pb) :: r.1,
       { scheduled_value := t.1.scheduled_value
         previous_billed := t.2.1
         this_period := pb
         total_billed := t.2.1 + pb
         balance_to_finish := t.1.scheduled_value - (t.2.1 + pb) } :: r.2.1,
       r.2.2 + pb)
    else (t.2.1 :: r.1, r.2.1, r.2.2)

/-- Pair each SOV line with its cumulative billed amount and its damping draw. -/
def zipLines (lines : List SOVLine) (billed damps : List ℚ) :
    List (SOVLine × ℚ × ℚ) :=
  lines.zip (billed.zip damps)

/-- The monthly billing loop: one iteration per month in `months`, threading
the per-line cumulative billing; a billing application is emitted only when
the period total is positive. `damps` gives the uniform damping draw for each
(month, line index). -/
def billingLoop (lines : List SOVLine) (duration : ℕ) (damps : ℕ → ℕ → ℚ) :
    List ℕ → List ℚ → List BillingApplication
  | [], _ => []
  | month :: ms, billed =>
    let pm := progressMult month duration
    let dampList := (List.range lines.length).map (damps month)
    let r := billLines pm (zipLines lines billed dampList)
    let rest := billingLoop lines duration damps ms r.1
    if r.2.2 > 0 then
      { application_number := month + 1
        period_total := r.2.2
        cumulative_billed := r.1.sum
        retention_held := r.1.sum * (10/100)
        net_payment_due := r.1.sum - r.1.sum * (10/100)
        line_items := r.2.1 } :: rest
    else rest

/-- `generate_billing_history`: run the billing loop over months
`0 .. duration` inclusive, starting from zero billed on every line. -/
def generate_billing_history (lines : List SOVLine) (duration : ℕ)
    (damps : ℕ → ℕ → ℚ) : List BillingApplication :=
  billingLoop lines duration damps (List.range (duration + 1)) (lines.map fun _ => 0)

theorem add_linePeriodBilling_le (v b tp damp : ℚ) :
    b + linePeriodBilling v b tp damp ≤ v := by
  simp only [linePeriodBilling]
  split_ifs with h
  · linarith
  · exact not_lt.mp h

theorem billLines_length (pm : ℚ) : ∀ ts : List (SOVLine × ℚ × ℚ),
    (billLines pm ts).1.length = ts.length
  | [] => rfl
  | t :: rest => by
    simp only [billLines]
    split <;> simp [billLines_length pm rest]

theorem billLines_mono (pm : ℚ) : ∀ ts : List (SOVLine × ℚ × ℚ),
    List.Forall₂ (· ≤ ·) (ts.map (·.2.1)) (billLines pm ts).1
  | [] => List.Forall₂.nil
  | t :: rest => by
    simp only [billLines, List.map_cons]
    split
    next h => exact List.Forall₂.cons (by linarith) (billLines_mono pm rest)
    next h => exact List.Forall₂.cons le_rfl (billLines_mono pm rest)

theorem billLines_items_le (pm : ℚ) : ∀ ts : List (SOVLine × ℚ × ℚ),
    ∀ item ∈ (billLines pm ts).2.1, item.total_billed ≤ item.scheduled_value
  | [] => by simp [billLines]
  | t :: rest => by
    simp only [billLines]
    split
    · intro item hitem
      rcases List.mem_cons.mp hitem with hhead | htail
      · subst hhead
        exact add_linePeriodBilling_le t.1.scheduled_value t.2.1 (targetPct t.1.line_number pm) t.2.2
      · exact billLines_items_le pm rest item htail
    · exact billLines_items_le pm rest

theorem billLines_le_values (pm : ℚ) : ∀ ts : List (SOVLine × ℚ × ℚ),
    List.Forall₂ (· ≤ ·) (ts.map (·.2.1)) (ts.map (·.1.scheduled_value)) →
    List.Forall₂ (· ≤ ·) (billLines pm ts).1 (ts.map (·.1.scheduled_value))
  | [] => fun _ => List.Forall₂.nil
  | t :: rest => by
    intro hinv
    rw [List.map_cons, List.map_cons, List.forall₂_cons] at hinv
    simp only [billLines, List.map_cons]
    split
    · exact List.Forall₂.cons
        (add_linePeriodBilling_le t.1.scheduled_value t.2.1 (targetPct t.1.line_number pm) t.2.2)
        (billLines_le_values pm rest hinv.2)
    · exact List.Forall₂.cons hinv.1 (billLines_le_values pm rest hinv.2)

theorem progressMult_zero (d : ℕ) : progressMult 0 d = 0 := by
  simp [progressMult]

theorem targetPct_zero (n : ℤ) : targetPct n 0 = 0 := by
  simp only [targetPct]
  split_ifs <;> norm_num

theorem linePeriodBilling_nonpos_of_zero (v damp : ℚ) :
    linePeriodBilling v 0 0 damp ≤ 0 := by
  simp only [linePeriodBilling, mul_zero, sub_zero, zero_sub, max_self, zero_mul,
    roundTo100_zero, add_zero, max_eq_right le_rfl]
  split_ifs with h
  · linarith
  · exact le_rfl

theorem billLines_of_zero_billed : ∀ ts : List (SOVLine × ℚ × ℚ),
    (∀ t ∈ ts, t.2.1 = 0) → billLines 0 ts = (ts.map (·.2.1), [], 0)
  | [] => by simp [billLines]
  | t :: rest => by
    intro h
    have ht : t.2.1 = 0 := h t (List.mem_cons_self t rest)
    have hpb : linePeriodBilling t.1.scheduled_value t.2.1 (targetPct t.1.line_number 0) t.2.2 ≤ 0 := by
      rw [ht, targetPct_zero]
      exact linePeriodBilling_nonpos_of_zero _ _
    have ih := billLines_of_zero_billed rest (fun x hx => h x (List.mem_cons_of_mem t hx))
    simp only [billLines, List.map_cons]
    rw [if_neg (by linarith), ih]

theorem zipLines_map_billed : ∀ (lines : List SOVLine) (billed damps : List ℚ),
    billed.length = lines.length → damps.length = lines.length →
    (zipLines lines billed damps).map (·.2.1) = billed
  | [], [], _, _, _ => by simp [zipLines]
  | l :: ls, b :: bs, d :: ds, hb, hd => by
    simp only [zipLines, List.zip_cons_cons, List.map_cons]
    have := zipLines_map_billed ls bs ds (by simpa using hb) (by simpa using hd)
    simp only [zipLines] at this
    rw [this]
  | [], b :: bs, _, hb, _ => by simp at hb
  | l :: ls, [], _, hb, _ => by simp at hb
  | l :: ls, b :: bs, [], _, hd => by simp at hd

theorem zipLines_map_values : ∀ (lines : List SOVLine) (billed damps : List ℚ),
    billed.length = lines.length → damps.length = lines.length →
    (zipLines lines billed damps).map (·.1.scheduled_value) = lines.map (·.scheduled_value)
  | [], _, _, _, _ => by simp [zipLines]
  | l :: ls, b :: bs, d :: ds, hb, hd => by
    simp only [zipLines, List.zip_cons_cons, List.map_cons]
    have := zipLines_map_values ls bs ds (by simpa using hb) (by simpa using hd)
    simp only [zipLines] at this
    rw [this]
  | l :: ls, [], _, hb, _ => by simp at hb
  | l :: ls, b :: bs, [], _, hd => by simp at hd

theorem zipLines_length (lines : List SOVLine) (billed damps : List ℚ)
    (hb : billed.length = lines.length) (hd : damps.length = lines.length) :
    (zipLines lines billed damps).length = lines.length := by
  simp [zipLines, hb, hd]

theorem billingLoop_cum_ge (lines : List SOVLine) (d : ℕ) (damps : ℕ → ℕ → ℚ) :
    ∀ (ms : List ℕ) (billed : List ℚ), billed.length = lines.length →
      ∀ app ∈ billingLoop lines d damps ms billed, billed.sum ≤ app.cumulative_billed
  | [], billed, _ => by simp [billingLoop]
  | m :: ms, billed, hlen => by
    intro app happ
    have hdlen : ((List.range lines.length).map (damps m)).length = lines.length := by simp
    have hts : (zipLines lines billed ((List.range lines.length).map (damps m))).map (·.2.1)
        = billed := zipLines_map_billed lines billed _ hlen hdlen
    have hmono := billLines_mono (progressMult m d)
        (zipLines lines billed ((List.range lines.length).map (damps m)))
    rw [hts] at hmono
    have hsum := hmono.sum_le_sum
    have hlen2 : (billLines (progressMult m d)
        (zipLines lines billed ((List.range lines.length).map (damps m)))).1.length
          = lines.length := by
      rw [billLines_length, zipLines_length lines billed _ hlen hdlen]
    simp only [billingLoop] at happ
    split at happ
    · rcases List.mem_cons.mp happ with rfl | htail
      · exact hsum
      · exact le_trans hsum (billingLoop_cum_ge lines d damps ms _ hlen2 app htail)
    · exact le_trans hsum (billingLoop_cum_ge lines d damps ms _ hlen2 app happ)

theorem billingLoop_pairwise_cum (lines : List SOVLine) (d : ℕ) (damps : ℕ → ℕ → ℚ) :
    ∀ (ms : List ℕ) (billed : List ℚ), billed.length = lines.length →
      (billingLoop lines d damps ms billed).Pairwise
        (fun a b => a.cumulative_billed ≤ b.cumulative_billed)
  | [], billed, _ => by simp [billingLoop]
  | m :: ms, billed, hlen => by
    have hdlen : ((List.range lines.length).map (damps m)).length = lines.length := by simp
    have hlen2 : (billLines (progressMult m d)
        (zipLines lines billed ((List.range lines.length).map (damps m)))).1.length
          = lines.length := by
      rw [billLines_length, zipLines_length lines billed _ hlen hdlen]
    simp only [billingLoop]
    split
    · exact List.Pairwise.cons
        (fun b hb => billingLoop_cum_ge lines d damps ms _ hlen2 b hb)
        (billingLoop_pairwise_cum lines d damps ms _ hlen2)
    · exact billingLoop_pairwise_cum lines d damps ms _ hlen2

theorem billingLoop_cum_le (lines : List SOVLine) (d : ℕ) (damps : ℕ → ℕ → ℚ) :
    ∀ (ms : List ℕ) (billed : List ℚ), billed.length = lines.length →
      List.Forall₂ (· ≤ ·) billed (lines.map (·.scheduled_value)) →
      ∀ app ∈ billingLoop lines d damps ms billed,
        app.cumulative_billed ≤ ((lines.map (·.scheduled_value)).sum)
  | [], billed, _, _ => by simp [billingLoop]
  | m :: ms, billed, hlen, hinv => by
    intro app happ
    have hdlen : ((List.range lines.length).map (damps m)).length = lines.length := by simp
    have hts : (zipLines lines billed ((List.range lines.length).map (damps m))).map (·.2.1)
        = billed := zipLines_map_billed lines billed _ hlen hdlen
    have htv : (zipLines lines billed ((List.range lines.length).map (damps m))).map
        (·.1.scheduled_value) = lines.map (·.scheduled_value) :=
      zipLines_map_values lines billed _ hlen hdlen
    have hpres := billLines_le_values (progressMult m d)
        (zipLines lines billed ((List.range lines.length).map (damps m)))
        (by rw [hts, htv]; exact hinv)
    rw [htv] at hpres
    have hlen2 : (billLines (progressMult m d)
        (zipLines lines billed ((List.range lines.length).map (damps m)))).1.length
          = lines.length := by
      rw [billLines_length, zipLines_length lines billed _ hlen hdlen]
    simp only [billingLoop] at happ
    split at happ
    · rcases List.mem_cons.mp happ with rfl | htail
      · exact hpres.sum_le_sum
      · exact billingLoop_cum_le lines d damps ms _ hlen2 hpres app htail
    · exact billingLoop_cum_le lines d damps ms _ hlen2 hpres app happ

theorem billingLoop_items_le (lines : List SOVLine) (d : ℕ) (damps : ℕ → ℕ → ℚ) :
    ∀ (ms : List ℕ) (billed : List ℚ),
      ∀ app ∈ billingLoop lines d damps ms billed, ∀ item ∈ app.line_items,
        item.total_billed ≤ item.scheduled_value
  | [], billed => by simp [billingLoop]
  | m :: ms, billed => by
    intro app happ
    simp only [billingLoop] at happ
    split at happ
    · rcases List.mem_cons.mp happ with rfl | htail
      · exact billLines_items_le _ _
      · exact billingLoop_items_le lines d damps ms _ app htail
    · exact billingLoop_items_le lines d damps ms _ app happ

theorem billingLoop_shape (lines : List SOVLine) (d : ℕ) (damps : ℕ → ℕ → ℚ) :
    ∀ (ms : List ℕ) (billed : List ℚ),
      ∀ app ∈ billingLoop lines d damps ms billed,
        (∃ m ∈ ms, app.application_number = m + 1) ∧ 0 < app.period_total ∧
        app.retention_held = app.cumulative_billed * (10/100) ∧
        app.net_payment_due = app.cumulative_billed - app.retention_held
  | [], billed => by simp [billingLoop]
  | m :: ms, billed => by
    intro app happ
    simp only [billingLoop] at happ
    split at happ
    · rcases List.mem_cons.mp happ with rfl | htail
      · refine ⟨⟨m, List.mem_cons_self m ms, rfl⟩, by assumption, rfl, rfl⟩
      · obtain ⟨⟨m2, hm2, hnum⟩, hrest⟩ := billingLoop_shape lines d damps ms _ app htail
        exact ⟨⟨m2, List.mem_cons_of_mem m hm2, hnum⟩, hrest⟩
    · obtain ⟨⟨m2, hm2, hnum⟩, hrest⟩ := billingLoop_shape lines d damps ms _ app happ
      exact ⟨⟨m2, List.mem_cons_of_mem m hm2, hnum⟩, hrest⟩

theorem billingLoop_pairwise_appnum (lines : List SOVLine) (d : ℕ) (damps : ℕ → ℕ → ℚ) :
    ∀ (ms : List ℕ) (billed : List ℚ), ms.Pairwise (· < ·) →
      (billingLoop lines d damps ms billed).Pairwise
        (fun a b => a.application_number < b.application_number)
  | [], billed, _ => by simp [billingLoop]
  | m :: ms, billed, hpw => by
    rw [List.pairwise_cons] at hpw
    simp only [billingLoop]
    split
    · refine List.Pairwise.cons ?_ (billingLoop_pairwise_appnum lines d damps ms _ hpw.2)
      intro b hb
      obtain ⟨⟨m2, hm2, hnum⟩, _⟩ := billingLoop_shape lines d damps ms _ b hb
      have := hpw.1 m2 hm2
      simp only [hnum]
      omega
    · exact billingLoop_pairwise_appnum lines d damps ms _ hpw.2

theorem billingLoop_length_le (lines : List SOVLine) (d : ℕ) (damps : ℕ → ℕ → ℚ) :
    ∀ (ms : List ℕ) (billed : List ℚ),
      (billingLoop lines d damps ms billed).length ≤ ms.length
  | [], billed => by simp [billingLoop]
  | m :: ms, billed => by
    simp only [billingLoop]
    split
    · simpa using billingLoop_length_le lines d damps ms _
    · exact le_trans (billingLoop_length_le lines d damps ms _) (Nat.le_succ _)

theorem generate_billing_history_eq (lines : List SOVLine) (d : ℕ) (damps : ℕ → ℕ → ℚ) :
    generate_billing_history lines d damps
      = billingLoop lines d damps ((List.range d).map Nat.succ) (lines.map fun _ => 0) := by
  unfold generate_billing_history
  rw [List.range_succ_eq_map]
  have hlen : (lines.map fun _ => (0:ℚ)).length = lines.length := by simp
  have hdlen : ((List.range lines.length).map (damps 0)).length = lines.length := by simp
  have hz : ∀ t ∈ zipLines lines (lines.map fun _ => (0:ℚ))
      ((List.range lines.length).map (damps 0)), t.2.1 = 0 := by
    intro t ht
    have hmem : t.2.1 ∈ (zipLines lines (lines.map fun _ => (0:ℚ))
        ((List.range lines.length).map (damps 0))).map (·.2.1) := List.mem_map_of_mem _ ht
    rw [zipLines_map_billed _ _ _ hlen hdlen] at hmem
    simp only [List.mem_map] at hmem
    obtain ⟨a, _, ha⟩ := hmem
    exact ha.symm
  simp only [billingLoop]
  rw [progressMult_zero, billLines_of_zero_billed _ hz,
    zipLines_map_billed _ _ _ hlen hdlen]
  norm_num

theorem generate_billing_history_length_le (lines : List SOVLine) (d : ℕ)
    (damps : ℕ → ℕ → ℚ) : (generate_billing_history lines d damps).length ≤ d := by
  rw [generate_billing_history_eq]
  have h := billingLoop_length_le lines d damps ((List.range d).map Nat.succ)
    (lines.map fun _ => 0)
  simpa using h

theorem generate_billing_history_appnum_bounds (lines : List SOVLine) (d : ℕ)
    (damps : ℕ → ℕ → ℚ) :
    ∀ app ∈ generate_billing_history lines d damps,
      2 ≤ app.application_number ∧ app.application_number ≤ d + 1 := by
  intro app happ
  rw [generate_billing_history_eq] at happ
  obtain ⟨⟨m, hm, hnum⟩, _⟩ := billingLoop_shape lines d damps _ _ app happ
  simp only [List.mem_map, List.mem_range] at hm
  obtain ⟨k, hk, rfl⟩ := hm
  omega

/-- C2: for every contract, every billing application produced by
`generate_billing_history`, and every billing line item in it, the cumulative
`total_billed` recorded against a SOV line never exceeds the
`scheduled_value` of that SOV line (the hard cap holds after every monthly step). -/
theorem billing_line_item_cap (lines : List SOVLine) (d : ℕ) (damps : ℕ → ℕ → ℚ) :
    ∀ app ∈ generate_billing_history lines d damps, ∀ item ∈ app.line_items,
      item.total_billed ≤ item.scheduled_value := by
  intro app happ
  unfold generate_billing_history at happ
  exact billingLoop_items_le lines d damps _ _ app happ

theorem forall₂_zero_le (lines : List SOVLine)
    (hv : ∀ l ∈ lines, 0 ≤ l.scheduled_value) :
    List.Forall₂ (· ≤ ·) (lines.map fun _ => (0:ℚ)) (lines.map (·.scheduled_value)) := by
  induction lines with
  | nil => exact List.Forall₂.nil
  | cons a t ih =>
    exact List.Forall₂.cons (hv a (List.mem_cons_self a t))
      (ih fun l hl => hv l (List.mem_cons_of_mem a hl))

/-- C3: for every contract, the `cumulative_billed` of the emitted billing
applications (which are ordered by increasing `application_number`) is
non-decreasing, and never exceeds the sum of all SOV scheduled values. -/
theorem billing_cum_monotone_bounded (lines : List SOVLine) (d : ℕ)
    (damps : ℕ → ℕ → ℚ) (hv : ∀ l ∈ lines, 0 ≤ l.scheduled_value) :
    (generate_billing_history lines d damps).Pairwise
      (fun a b => a.cumulative_billed ≤ b.cumulative_billed) ∧
    ∀ app ∈ generate_billing_history lines d damps,
      app.cumulative_billed ≤ ((lines.map (·.scheduled_value)).sum) := by
  constructor
  · unfold generate_billing_history
    exact billingLoop_pairwise_cum lines d damps _ _ (by simp)
  · intro app happ
    unfold generate_billing_history at happ
    exact billingLoop_cum_le lines d damps _ _ (by simp) (forall₂_zero_le lines hv) app happ

/-- C6: every billing application emitted by `generate_billing_history` has
`retention_held` exactly `0.10 * cumulative_billed` and `net_payment_due`
exactly `cumulative_billed - retention_held`. -/
theorem billing_retention_net (lines : List SOVLine) (d : ℕ) (damps : ℕ → ℕ → ℚ) :
    ∀ app ∈ generate_billing_history lines d damps,
      app.retention_held = (10/100) * app.cumulative_billed ∧
      app.net_payment_due = app.cumulative_billed - app.retention_held := by
  intro app happ
  unfold generate_billing_history at happ
  obtain ⟨_, _, hret, hnet⟩ := billingLoop_shape lines d damps _ _ app happ
  exact ⟨by rw [hret]; ring, hnet⟩

/-- C10: within one contract the emitted application numbers are strictly
increasing (each is its month index plus 1), every emitted application has a
positive period total, and the sequence need not start at 1 nor be
contiguous: months with zero period total are skipped; in particular month 0
is always skipped, so every application number is at least 2 (and at most
`duration + 1`). -/
theorem billing_application_numbers (lines : List SOVLine) (d : ℕ)
    (damps : ℕ → ℕ → ℚ) :
    (generate_billing_history lines d damps).Pairwise
      (fun a b => a.application_number < b.application_number) ∧
    ∀ app ∈ generate_billing_history lines d damps,
      0 < app.period_total ∧ 2 ≤ app.application_number ∧
      app.application_number ≤ d + 1 := by
  constructor
  · unfold generate_billing_history
    exact billingLoop_pairwise_appnum lines d damps _ _ (List.pairwise_lt_range _)
  · intro app happ
    have h1 := generate_billing_history_appnum_bounds lines d damps app happ
    unfold generate_billing_history at happ
    obtain ⟨_, hpt, _⟩ := billingLoop_shape lines d damps _ _ app happ
    exact ⟨hpt, h1⟩

/-- C4 (amended): for a project with `duration_months = 12`,
`generate_billing_history` emits at most 12 applications (month 0 always has
zero period total and is skipped), every application number lies in `2..13`,
and every cumulative billed amount is at most the sum of the SOV scheduled
values (it can fall short of that sum by more than 100). -/
theorem billing_duration12 (lines : List SOVLine) (damps : ℕ → ℕ → ℚ)
    (hv : ∀ l ∈ lines, 0 ≤ l.scheduled_value) :
    (generate_billing_history lines 12 damps).length ≤ 12 ∧
    ∀ app ∈ generate_billing_history lines 12 damps,
      (2 ≤ app.application_number ∧ app.application_number ≤ 13) ∧
      app.cumulative_billed ≤ ((lines.map (·.scheduled_value)).sum) := by
  refine ⟨generate_billing_history_length_le lines 12 damps, ?_⟩
  intro app happ
  refine ⟨generate_billing_history_appnum_bounds lines 12 damps app happ, ?_⟩
  unfold generate_billing_history at happ
  exact billingLoop_cum_le lines 12 damps _ _ (by simp) (forall₂_zero_le lines hv) app happ

/-- A concrete one-line SOV used by the billing witnesses. -/
def witnessLine : SOVLine :=
  { line_number := 1, scheduled_value := 1000, labor_pct := 13/20, material_pct := 7/20 }

/-- Witness for C2 at a concrete one-line contract over two months. -/
theorem billing_line_item_cap_witness :
    ((generate_billing_history [witnessLine] 1 (fun _ _ => 1)).headI.line_items.headI.total_billed
      ≤ (generate_billing_history [witnessLine] 1
          (fun _ _ => 1)).headI.line_items.headI.scheduled_value) := by
  refine billing_line_item_cap [witnessLine] 1 (fun _ _ => 1)
    ((generate_billing_history [witnessLine] 1 (fun _ _ => 1)).headI) ?_ _ ?_ <;>
    norm_num [witnessLine, generate_billing_history, billingLoop, billLines, zipLines,
      linePeriodBilling, targetPct, progressMult, roundTo100, pyRound, List.range_succ]

/-- Witness for C3 at a concrete one-line contract over two months. -/
theorem billing_cum_monotone_bounded_witness :
    (generate_billing_history [witnessLine] 1 (fun _ _ => 1)).Pairwise
      (fun a b => a.cumulative_billed ≤ b.cumulative_billed) ∧
    ((generate_billing_history [witnessLine] 1 (fun _ _ => 1)).headI.cumulative_billed
      ≤ (([witnessLine] : List SOVLine).map (·.scheduled_value)).sum) := by
  have h := billing_cum_monotone_bounded [witnessLine] 1 (fun _ _ => 1)
    (by norm_num [witnessLine])
  refine ⟨h.1, h.2 _ ?_⟩
  norm_num [witnessLine, generate_billing_history, billingLoop, billLines, zipLines,
    linePeriodBilling, targetPct, progressMult, roundTo100, pyRound, List.range_succ]

/-- Witness for C6 at a concrete one-line contract over two months. -/
theorem billing_retention_net_witness :
    ((generate_billing_history [witnessLine] 1 (fun _ _ => 1)).headI.retention_held
      = (10/100) * (generate_billing_history [witnessLine] 1
          (fun _ _ => 1)).headI.cumulative_billed) ∧
    ((generate_billing_history [witnessLine] 1 (fun _ _ => 1)).headI.net_payment_due
      = (generate_billing_history [witnessLine] 1 (fun _ _ => 1)).headI.cumulative_billed
        - (generate_billing_history [witnessLine] 1 (fun _ _ => 1)).headI.retention_held) := by
  refine billing_retention_net [witnessLine] 1 (fun _ _ => 1)
    ((generate_billing_history [witnessLine] 1 (fun _ _ => 1)).headI) ?_
  norm_num [witnessLine, generate_billing_history, billingLoop, billLines, zipLines,
    linePeriodBilling, targetPct, progressMult, roundTo100, pyRound, List.range_succ]

/-- Witness for C10 at a concrete one-line contract over two months. -/
theorem billing_application_numbers_witness :
    (generate_billing_history [witnessLine] 1 (fun _ _ => 1)).Pairwise
      (fun a b => a.application_number < b.application_number) ∧
    (0 < (generate_billing_history [witnessLine] 1 (fun _ _ => 1)).headI.period_total ∧
     2 ≤ (generate_billing_history [witnessLine] 1 (fun _ _ => 1)).headI.application_number ∧
     (generate_billing_history [witnessLine] 1 (fun _ _ => 1)).headI.application_number ≤ 2) := by
  have h := billing_application_numbers [witnessLine] 1 (fun _ _ => 1)
  refine ⟨h.1, h.2 _ ?_⟩
  norm_num [witnessLine, generate_billing_history, billingLoop, billLines, zipLines,
    linePeriodBilling, targetPct, progressMult, roundTo100, pyRound, List.range_succ]

/-- Witness for the amended C4 at a concrete one-line contract over 13 months. -/
theorem billing_duration12_witness :
    (generate_billing_history [witnessLine] 12 (fun _ _ => 1)).length ≤ 12 ∧
    ((2 ≤ (generate_billing_history [witnessLine] 12 (fun _ _ => 1)).headI.application_number ∧
      (generate_billing_history [witnessLine] 12 (fun _ _ => 1)).headI.application_number ≤ 13) ∧
      (generate_billing_history [witnessLine] 12 (fun _ _ => 1)).headI.cumulative_billed
        ≤ (([witnessLine] : List SOVLine).map (·.scheduled_value)).sum) := by
  have h := billing_duration12 [witnessLine] (fun _ _ => 1) (by norm_num [witnessLine])
  refine ⟨h.1, h.2 _ ?_⟩
  norm_num [witnessLine, generate_billing_history, billingLoop, billLines, zipLines,
    linePeriodBilling, targetPct, progressMult, roundTo100, pyRound, List.range_succ]

/-- Concrete percentage draws for the C4 counterexample: the midpoint of each
declared template percentage range. -/
def c4Pcts : List ℚ :=
  [75/1000, 3/100, 1/10, 12/100, 1/10, 55/1000, 15/100, 11/100, 8/100, 8/100,
   4/100, 5/100, 3/100, 25/1000, 15/1000]

def c4PctDraw : ℕ → ℚ := fun i => (c4Pcts.get? i).getD 0

/-- A full 15-line SOV allocation for a contract of 1,060,000 at the midpoint
draws (scheduled values: 75000, 30000, 100000, 120000, 100000, 55000, 150000,
110000, 80000, 80000, 40000, 50000, 30000, 25000, 15000). -/
def c4Lines : List SOVLine := generate_sov 1060000 c4PctDraw (fun _ => 13/20) (fun _ => 7/20)

set_option maxHeartbeats 4000000 in
/-- Counterexample to C4: for this concrete project with `duration_months
= 12` (full 15-line SOV, damping draws all 1), `generate_billing_history`
emits 11 applications, not 13, and the final cumulative billing falls short
of the sum of the SOV scheduled values by 5800, far outside the claimed 100
rounding tolerance. -/
theorem billing_duration12_counterexample :
    (generate_billing_history c4Lines 12 (fun _ _ => 1)).length ≠ 13 ∧
    ¬ |((generate_billing_history c4Lines 12 (fun _ _ => 1)).getLastD default).cumulative_billed
        - (c4Lines.map (·.scheduled_value)).sum| ≤ 100 := by
  norm_num [c4Lines, c4PctDraw, c4Pcts, generate_billing_history, billingLoop,
    billLines, zipLines, linePeriodBilling, targetPct, progressMult, roundTo100, pyRound,
    generate_sov, setLastValue, SOV_TEMPLATE, List.range_succ, abs_le]

/-- The per-worker daily hours logic of `generate_labor_logs`: when the
overtime draw fires (`r1 < 0.15`), standard hours are 8 and overtime is
chosen from {2, 4}; otherwise overtime is 0 and standard hours are 8 unless
the anomaly draw fires (`r2 ≤ 0.1`), in which case they come from {4, 6, 10}. -/
def laborHours (r1 : ℚ) (otPick : Fin 2) (r2 : ℚ) (anomPick : Fin 3) : ℚ × ℚ :=
  if r1 < 15/100 then
    (8, if otPick = 0 then 2 else 4)
  else
    (if r2 > 1/10 then 8
     else if anomPick = 0 then 4 else if anomPick = 1 then 6 else 10, 0)

/-- C9: in every labor log entry, positive overtime forces standard hours of
8 with overtime 2 or 4 (so between 2 and 4); zero overtime gives standard
hours in {4, 6, 8, 10}, with 8 whenever the anomaly draw does not fire, and
an anomalous 4, 6 or 10 only when both `r1 ≥ 0.15` and `r2 ≤ 0.1`. -/
theorem labor_hours_pattern (r1 : ℚ) (ot : Fin 2) (r2 : ℚ) (an : Fin 3) :
    (0 < (laborHours r1 ot r2 an).2 →
      (laborHours r1 ot r2 an).1 = 8 ∧
      ((laborHours r1 ot r2 an).2 = 2 ∨ (laborHours r1 ot r2 an).2 = 4)) ∧
    ((laborHours r1 ot r2 an).2 = 0 →
      ((laborHours r1 ot r2 an).1 = 4 ∨ (laborHours r1 ot r2 an).1 = 6 ∨
       (laborHours r1 ot r2 an).1 = 8 ∨ (laborHours r1 ot r2 an).1 = 10)) ∧
    ((laborHours r1 ot r2 an).2 = 0 ∧ 1/10 < r2 → (laborHours r1 ot r2 an).1 = 8) ∧
    (((laborHours r1 ot r2 an).1 = 4 ∨ (laborHours r1 ot r2 an).1 = 6 ∨
      (laborHours r1 ot r2 an).1 = 10) → r2 ≤ 1/10 ∧ ¬ r1 < 15/100) := by
  unfold laborHours
  split_ifs with h1 h2 h3 h4
  · exact ⟨fun _ => ⟨rfl, Or.inl rfl⟩, by norm_num, by norm_num, by norm_num⟩
  · exact ⟨fun _ => ⟨rfl, Or.inr rfl⟩, by norm_num, by norm_num, by norm_num⟩
  · exact ⟨by norm_num, by norm_num, fun _ => rfl, by norm_num⟩
  · exact ⟨by norm_num, by norm_num, fun hc => absurd hc.2 h3,
      fun _ => ⟨not_lt.mp h3, h1⟩⟩
  · exact ⟨by norm_num, by norm_num, fun hc => absurd hc.2 h3,
      fun _ => ⟨not_lt.mp h3, h1⟩⟩
  · exact ⟨by norm_num, by norm_num, fun hc => absurd hc.2 h3,
      fun _ => ⟨not_lt.mp h3, h1⟩⟩

/-- Witness for C9: with an overtime draw of `r1 = 0` (below 0.15) and first
pick, hours are 8 standard and the overtime is 2 or 4. -/
theorem labor_hours_pattern_witness :
    (0:ℚ) < (laborHours 0 0 1 0).2 ∧ (laborHours 0 0 1 0).1 = 8 ∧
      ((laborHours 0 0 1 0).2 = 2 ∨ (laborHours 0 0 1 0).2 = 4) := by
  have h := labor_hours_pattern 0 0 1 0
  have hot : (0:ℚ) < (laborHours 0 0 1 0).2 := by norm_num [laborHours]
  exact ⟨hot, h.1 hot⟩

/-- One labor log record as constructed in `generate_labor_logs`: `log_id`
comes from the uuid source (`str(uuid.uuid4())[:8]`), which is not read from
the seeded pseudo-random stream; every other field is a function of the
seeded draws and the fixed inputs. -/
structure LaborLogEntry where
  log_id : String
  employee_id : ℕ
  role : String
  hours_st : ℚ
  hours_ot : ℚ
  hourly_rate : ℚ
  burden_multiplier : ℚ
deriving DecidableEq, Repr

def mkLaborLogEntry (uuid : String) (empNum : ℕ) (role : String) (rate burden : ℚ)
    (r1 : ℚ) (otPick : Fin 2) (r2 : ℚ) (anomPick : Fin 3) : LaborLogEntry :=
  { log_id := uuid.take 8
    employee_id := empNum
    role := role
    hours_st := (laborHours r1 otPick r2 anomPick).1
    hours_ot := (laborHours r1 otPick r2 anomPick).2
    hourly_rate := rate
    burden_multiplier := burden }

/-- `delivery_id` as built in `generate_material_deliveries`: the literal
`DEL-`, the last 3 characters of the project id, `-`, then the first 6
characters of a fresh uuid4. -/
def mkDeliveryId (projectId uuid : String) : String :=
  "DEL-" ++ (projectId.drop (projectId.length - 3)) ++ "-" ++ uuid.take 6

/-- `note_id` as built in `generate_field_notes`: the first 8 characters of a
fresh uuid4. -/
def mkNoteId (uuid : String) : String := uuid.take 8

/-- The record with its uuid-derived identifier blanked, to compare the
seeded-draw-determined fields of two runs. -/
def stripLogId (e : LaborLogEntry) : LaborLogEntry := { e with log_id := "" }

/-- Counterexample to C5: two runs that agree on the seed (hence on every
pseudo-random draw) but draw different uuid4 values produce different
`log_id`, `delivery_id` and `note_id`, because `uuid.uuid4()` does not read
the seeded generator. -/
theorem run_identifiers_counterexample :
    (mkLaborLogEntry "6e9a1c2b-77aa" 1000 "Foreman" (171/2) (71/50) 0 0 1 0).log_id
      ≠ (mkLaborLogEntry "f0d3e4a5-88bb" 1000 "Foreman" (171/2) (71/50) 0 0 1 0).log_id ∧
    mkDeliveryId "PRJ-2024-001" "a1b2c3d4-11" ≠ mkDeliveryId "PRJ-2024-001" "e5f6a7b8-22" ∧
    mkNoteId "0123abcd-99" ≠ mkNoteId "4567efab-00" := by
  refine ⟨?_, ?_, ?_⟩ <;> simp only [mkLaborLogEntry, mkDeliveryId, mkNoteId] <;> decide

/-- C5 (amended): given the same seeded pseudo-random draws, two runs agree
on every labor log field except the uuid-derived `log_id`; identifiers drawn
from `uuid.uuid4()` (`log_id`, `delivery_id`, `note_id`) are outside the
reach of the seed, as is the wall-clock-dependent change order status. -/
theorem run_determinism_modulo_uuid (u1 u2 : String) (empNum : ℕ) (role : String)
    (rate burden r1 : ℚ) (ot : Fin 2) (r2 : ℚ) (an : Fin 3) :
    stripLogId (mkLaborLogEntry u1 empNum role rate burden r1 ot r2 an)
      = stripLogId (mkLaborLogEntry u2 empNum role rate burden r1 ot r2 an) := by
  simp [stripLogId, mkLaborLogEntry]

/-- The RFI fields that carry the response lifecycle. -/
structure RFI where
  date_responded : Option ℕ
  status : String
deriving DecidableEq, Repr

/-- The population of the weighted `response_days` draw in `generate_rfis`:
3, 5, 7, 10, 14 or 21 days, or no response. -/
def RESPONSE_DAYS_CHOICES : List (Option ℕ) :=
  [some 3, some 5, some 7, some 10, some 14, some 21, none]

/-- The response logic of `generate_rfis`: `date_responded` is set iff the
drawn `response_days` is truthy (Python truthiness: not None and nonzero);
the status is Closed iff `date_responded` is set, else Open or Pending
Response by a further draw. Dates are embedded as day offsets. -/
def mkRFI (responseDays : Option ℕ) (submitDay : ℕ) (openPick : Fin 2) : RFI :=
  let truthy := match responseDays with
    | none => false
    | some d => d != 0
  let dateResponded := if truthy then some (submitDay + responseDays.getD 0) else none
  { date_responded := dateResponded
    status := if dateResponded.isSome then "Closed"
              else if openPick = 0 then "Open" else "Pending Response" }

/-- C8: an RFI has a non-null `date_responded` iff its status is Closed, and
when no response delay is drawn the date is null and the status is Open or
Pending Response. -/
theorem rfi_responded_iff_closed (rd : Option ℕ) (s : ℕ) (c : Fin 2)
    (hrd : rd ∈ RESPONSE_DAYS_CHOICES) :
    ((mkRFI rd s c).date_responded.isSome ↔ (mkRFI rd s c).status = "Closed") ∧
    (rd = none → (mkRFI rd s c).date_responded = none ∧
      ((mkRFI rd s c).status = "Open" ∨ (mkRFI rd s c).status = "Pending Response")) := by
  fin_cases hrd <;> fin_cases c <;> simp [mkRFI]

/-- Witness for C8 at the no-response draw. -/
theorem rfi_responded_iff_closed_witness :
    ((mkRFI none 0 0).date_responded.isSome ↔ (mkRFI none 0 0).status = "Closed") ∧
    ((mkRFI none 0 0).date_responded = none ∧
      ((mkRFI none 0 0).status = "Open" ∨ (mkRFI none 0 0).status = "Pending Response")) := by
  have h := rfi_responded_iff_closed none 0 0 (by simp [RESPONSE_DAYS_CHOICES])
  exact ⟨h.1, h.2 rfl⟩

/-- The `sov_to_materials` map of `generate_material_deliveries`: SOV line
numbers 3-12 map to a material category; other lines get no deliveries. -/
def sovToMaterial (n : ℤ) : Option String :=
  if n = 3 ∨ n = 4 then some "Ductwork"
  else if n = 5 ∨ n = 6 then some "Piping"
  else if n = 7 ∨ n = 8 ∨ n = 9 then some "Equipment"
  else if n = 10 ∨ n = 11 then some "Controls"
  else if n = 12 then some "Insulation"
  else none

/-- The monetary fields of one material delivery record. -/
structure Delivery where
  material_category : String
  quantity : ℕ
  unit_cost : ℚ
  total_cost : ℚ
deriving DecidableEq, Repr

/-- Build one delivery record from its category, quantity draw and allocated
value: `total_cost = round(value, 2)` and `unit_cost = round(value / qty, 2)`. -/
def mkDelivery (cat : String) (qty : ℕ) (value : ℚ) : Delivery :=
  { material_category := cat
    quantity := qty
    unit_cost := roundCents (value / (qty : ℚ))
    total_cost := roundCents value }

/-- The deliveries generated for one SOV line: when the line number maps to a
material category, the uniform `weights` (one per delivery) are normalized to
sum to 1 and scaled by `material_budget = scheduled_value * material_pct`;
unmapped lines get no deliveries. -/
def deliveriesForLine (line : SOVLine) (weights : List ℚ) (qty : ℕ → ℕ) : List Delivery :=
  match sovToMaterial line.line_number with
  | none => []
  | some cat =>
    let budget := line.scheduled_value * line.material_pct
    let total := weights.sum
    let vals := weights.map fun w => w / total * budget
    (vals.zip (List.range vals.length)).map fun vi => mkDelivery cat (qty vi.2) vi.1

theorem sum_map_roundCents_sub_le : ∀ vs : List ℚ,
    |(vs.map roundCents).sum - vs.sum| ≤ (vs.length : ℚ) / 200
  | [] => by simp
  | v :: vs => by
    have ih := sum_map_roundCents_sub_le vs
    have hv := abs_roundCents_sub_le v
    simp only [List.map_cons, List.sum_cons, List.length_cons]
    have hsplit : roundCents v + (vs.map roundCents).sum - (v + vs.sum)
        = (roundCents v - v) + ((vs.map roundCents).sum - vs.sum) := by ring
    rw [hsplit]
    calc |(roundCents v - v) + ((vs.map roundCents).sum - vs.sum)|
        ≤ |roundCents v - v| + |(vs.map roundCents).sum - vs.sum| := abs_add _ _
      _ ≤ 1/200 + (vs.length : ℚ)/200 := add_le_add hv ih
      _ = ((vs.length + 1 : ℕ) : ℚ)/200 := by push_cast; ring

theorem sum_map_div_mul (weights : List ℚ) (budget : ℚ) (hw : weights.sum ≠ 0) :
    (weights.map fun w => w / weights.sum * budget).sum = budget := by
  have hmul : ∀ (l : List ℚ) (c b : ℚ), (l.map fun x => x / c * b).sum = l.sum / c * b := by
    intro l c b
    induction l with
    | nil => simp
    | cons a t iht => simp [iht]; ring
  rw [hmul, div_self hw, one_mul]

theorem sovToMaterial_none (n : ℤ) (h : n < 3 ∨ 12 < n) : sovToMaterial n = none := by
  unfold sovToMaterial
  split_ifs <;> first | rfl | (simp only [not_or] at *; omega)

theorem sovToMaterial_isSome (n : ℤ) (h3 : 3 ≤ n) (h12 : n ≤ 12) :
    ∃ cat, sovToMaterial n = some cat := by
  unfold sovToMaterial
  split_ifs <;> first | exact ⟨_, rfl⟩ | (simp only [not_or] at *; omega)

theorem map_total_cost_mkDelivery (cat : String) (qty : ℕ → ℕ) (vals : List ℚ) :
    (((vals.zip (List.range vals.length)).map fun vi =>
        mkDelivery cat (qty vi.2) vi.1).map (·.total_cost))
      = vals.map roundCents := by
  have hfst : (vals.zip (List.range vals.length)).map Prod.fst = vals :=
    List.map_fst_zip _ _ (by simp)
  calc (((vals.zip (List.range vals.length)).map fun vi =>
        mkDelivery cat (qty vi.2) vi.1).map (·.total_cost))
      = (vals.zip (List.range vals.length)).map fun vi => roundCents vi.1 := by
        rw [List.map_map]; rfl
    _ = ((vals.zip (List.range vals.length)).map Prod.fst).map roundCents := by
        rw [List.map_map]; rfl
    _ = vals.map roundCents := by rw [hfst]

/-- C7: for an SOV line whose number maps to a material category (3-12), the
delivery `total_cost` values sum to `scheduled_value * material_pct` within
the cent-rounding tolerance `n/200` for `n` deliveries (at most 1/25 for the
3-8 deliveries the generator draws); lines outside 3-12 get no deliveries. -/
theorem deliveries_sum_to_budget (line : SOVLine) (weights : List ℚ) (qty : ℕ → ℕ)
    (hw : 0 < weights.sum) (hn : weights.length ≤ 8) :
    (3 ≤ line.line_number → line.line_number ≤ 12 →
      |((deliveriesForLine line weights qty).map (·.total_cost)).sum
        - line.scheduled_value * line.material_pct| ≤ 1/25) ∧
    ((line.line_number < 3 ∨ 12 < line.line_number) →
      deliveriesForLine line weights qty = []) := by
  constructor
  · intro h3 h12
    obtain ⟨cat, hcat⟩ := sovToMaterial_isSome line.line_number h3 h12
    unfold deliveriesForLine
    rw [hcat]
    simp only [map_total_cost_mkDelivery]
    have hsum := sum_map_div_mul weights (line.scheduled_value * line.material_pct)
      (ne_of_gt hw)
    have hclose := sum_map_roundCents_sub_le (weights.map fun w =>
      w / weights.sum * (line.scheduled_value * line.material_pct))
    rw [hsum, List.length_map] at hclose
    have hcast : (weights.length : ℚ) ≤ 8 := by exact_mod_cast hn
    calc |((weights.map fun w =>
          w / weights.sum * (line.scheduled_value * line.material_pct)).map roundCents).sum
            - line.scheduled_value * line.material_pct|
        ≤ (weights.length : ℚ) / 200 := hclose
      _ ≤ 1/25 := by linarith
  · intro hout
    unfold deliveriesForLine
    rw [sovToMaterial_none line.line_number hout]

/-- A concrete SOV line used by the C7 witness. -/
def deliveryWitnessLine : SOVLine :=
  { line_number := 3, scheduled_value := 1000, labor_pct := 13/20, material_pct := 7/20 }

/-- Witness for C7 at a concrete ductwork line with two equal weights. -/
theorem deliveries_sum_to_budget_witness :
    |((deliveriesForLine deliveryWitnessLine [1, 1] (fun _ => 2)).map (·.total_cost)).sum
      - deliveryWitnessLine.scheduled_value * deliveryWitnessLine.material_pct| ≤ 1/25 := by
  have h := deliveries_sum_to_budget deliveryWitnessLine [1, 1] (fun _ => 2)
    (by norm_num) (by norm_num)
  exact h.1 (by norm_num [deliveryWitnessLine]) (by norm_num [deliveryWitnessLine])
